import Mathlib

/-!
Verification of the render pipeline of `src/pyhtonProj/app.py`
(quote/image fetching, compositing, layout).

The Python code is shallowly embedded:
* network requests are modelled by an explicit result value per request
  (`HttpResult` / `QuoteResp`): either the request raises, or it returns a
  status code and a body;
* Python `try/except` blocks are modelled with `Except Unit`, the handler
  being applied at the boundary exactly where the code catches;
* Python `float` arithmetic on the small integer quantities involved is
  modelled by exact rationals (`ℚ`); `int(...)` on a positive float is
  `Int.floor`;
* Pillow (`Image.open/resize/crop`, `ImageDraw`, `ImageFont`) and Tk are
  external libraries: decoding is a parameter `decode : List ℕ → Option (ℕ × ℕ)`
  giving the decoded image's pixel dimensions (`none` = decoding raises),
  text measurement (`draw.textbbox`) is a parameter
  `measure : List Char → Font → ℕ × ℕ`, and font-file loading success is a
  parameter `loads : String → Bool`.  `Image.crop` rounds each float box
  coordinate with Python banker's rounding (`roundHalfEven`), as in
  Pillow's `Image._crop` (`map(int, map(round, box))`).
-/

-- --------------------------------------------------------------------------
-- Configuration constants (app.py lines 21-24)
-- --------------------------------------------------------------------------

def WINDOW_WIDTH : ℕ := 900

def WINDOW_HEIGHT : ℕ := 600

def UPDATE_INTERVAL_MS : ℕ := 10000

-- --------------------------------------------------------------------------
-- Content Fetcher: fetch_image (app.py lines 109-135)
-- --------------------------------------------------------------------------

/-- Outcome of one `requests.get` call: the call either raises
(timeout, connection error, ...) or returns a response with a status code
and raw body bytes. -/
inductive HttpResult where
  | exn : HttpResult
  | ok (status : ℕ) (body : List ℕ) : HttpResult

/-- `requests.get` in the `Except`-embedding of a `try` block. -/
def requestsGet (r : HttpResult) : Except Unit (ℕ × List ℕ) :=
  match r with
  | .exn => .error ()
  | .ok s b => .ok (s, b)

/-- The `try` block of `fetch_image` (app.py lines 111-131): primary
LoremFlickr request; on status 200 return its content; otherwise the
Picsum fallback request; on status 200 return its content; otherwise fall
off the end of the block (`.ok none`).  An exception anywhere propagates
(`.error`). -/
def fetch_image_try (primary fallback : HttpResult) : Except Unit (Option (List ℕ)) :=
  match requestsGet primary with
  | .error e => .error e
  | .ok (s, b) =>
    if s = 200 then .ok (some b)
    else
      match requestsGet fallback with
      | .error e => .error e
      | .ok (s2, b2) => if s2 = 200 then .ok (some b2) else .ok none

/-- `fetch_image` (app.py lines 109-135): the `except` handler logs and
control reaches the final `return None`; a non-200 pair of responses also
reaches `return None`. -/
def fetch_image (primary fallback : HttpResult) : Option (List ℕ) :=
  match fetch_image_try primary fallback with
  | .ok r => r
  | .error _ => none

-- --------------------------------------------------------------------------
-- Content Fetcher: fetch_quote (app.py lines 88-107)
-- --------------------------------------------------------------------------

/-- JSON values, as produced by `response.json()`. -/
inductive Json where
  | str (s : String) : Json
  | num (n : ℤ) : Json
  | bool (b : Bool) : Json
  | null : Json
  | arr (elems : List Json) : Json
  | obj (fields : List (String × Json)) : Json

/-- Result of `response.json()`: it either raises (unparseable body) or
yields a JSON value. -/
inductive JsonParse where
  | fail : JsonParse
  | val (j : Json) : JsonParse

/-- Outcome of the quote request. -/
inductive QuoteResp where
  | exn : QuoteResp
  | resp (status : ℕ) (body : JsonParse) : QuoteResp

/-- Python `data.get(key, dflt)`: returns the value under `key`, or `dflt`
when the key is missing; raises `AttributeError` when `data` is not a
dict. -/
def dictGet (data : Json) (key : String) (dflt : Json) : Except Unit Json :=
  match data with
  | .obj fields => .ok ((fields.lookup key).getD dflt)
  | _ => .error ()

/-- The static fallback pair returned on a non-200 quote response
(app.py line 104). -/
def apiErrorPair : Json × Json :=
  (.str "The beauty of the world lies in the details.", .str "Default")

/-- The static fallback pair returned by the `except` handler of
`fetch_quote` (app.py line 107). -/
def offlinePair : Json × Json :=
  (.str "Stay focused and never give up.", .str "Offline Mode")

/-- The `try` block of `fetch_quote` (app.py lines 90-104): on a 200
response, parse JSON (`data[0]` when the value is a list - raising
`IndexError` on an empty list), then
`data.get("quote", data.get("content", default))` and
`data.get("author", "Unknown")`; on any other status return the
"API error" pair. -/
def fetch_quote_try (r : QuoteResp) : Except Unit (Json × Json) :=
  match r with
  | .exn => .error ()
  | .resp status body =>
    if status = 200 then
      match body with
      | .fail => .error ()
      | .val data => do
        let d ← (match data with
          | .arr es =>
            (match es with
             | [] => (.error () : Except Unit Json)
             | e :: _ => .ok e)
          | other => .ok other)
        let inner ← dictGet d "content" (.str "Inspiration allows us to do great things.")
        let content ← dictGet d "quote" inner
        let author ← dictGet d "author" (.str "Unknown")
        .ok (content, author)
    else
      .ok apiErrorPair

/-- `fetch_quote` (app.py lines 88-107): any exception in the `try` block
is caught and the "offline" pair returned. -/
def fetch_quote (r : QuoteResp) : Json × Json :=
  match fetch_quote_try r with
  | .ok p => p
  | .error _ => offlinePair

lemma apiErrorPair_ne_offlinePair : apiErrorPair ≠ offlinePair := by
  intro h
  have h1 := congrArg Prod.fst h
  simp only [apiErrorPair, offlinePair] at h1
  injection h1 with h2
  exact absurd h2 (by decide)

-- --------------------------------------------------------------------------
-- Claim C2
-- --------------------------------------------------------------------------

/-- C2 (counterexample): the claim says that when the primary image
request raises, `fetch_image` attempts the fallback and returns its bytes
when it responds 200.  In the code the exception jumps straight to the
`except` handler and then to `return None`, skipping the fallback: with a
raising primary and a succeeding fallback the result is `none`, not the
fallback's bytes. -/
theorem fetch_image_primary_exn_skips_fallback :
    fetch_image HttpResult.exn (HttpResult.ok 200 [1]) = none ∧
      (none : Option (List ℕ)) ≠ some [1] := by
  constructor
  · rfl
  · intro h; exact Option.noConfusion h

/-- C2 (amended): `fetch_image` attempts the fallback only after a non-200
primary *response*; a raised primary error returns `none` without trying
the fallback.  It returns the primary bytes on primary status 200, the
fallback bytes when the primary status is non-200 and the fallback status
is 200, and `none` in every other case (it never raises: both requests sit
inside the caught `try` block). -/
theorem fetch_image_spec (s : ℕ) (b b2 : List ℕ) (f : HttpResult) :
    fetch_image (HttpResult.ok 200 b) f = some b ∧
    fetch_image HttpResult.exn f = none ∧
    (s ≠ 200 → fetch_image (HttpResult.ok s b) (HttpResult.ok 200 b2) = some b2) ∧
    (s ≠ 200 → fetch_image (HttpResult.ok s b) HttpResult.exn = none) ∧
    (∀ s2 : ℕ, s ≠ 200 → s2 ≠ 200 →
      fetch_image (HttpResult.ok s b) (HttpResult.ok s2 b2) = none) := by
  refine ⟨?_, ?_, ?_, ?_, ?_⟩
  · simp [fetch_image, fetch_image_try, requestsGet]
  · rfl
  · intro hs
    simp [fetch_image, fetch_image_try, requestsGet, hs]
  · intro hs
    simp [fetch_image, fetch_image_try, requestsGet, hs]
  · intro s2 hs hs2
    simp [fetch_image, fetch_image_try, requestsGet, hs, hs2]

/-- C2 witness: amended behaviour at concrete inputs (primary 500,
fallback 200 and 404). -/
theorem fetch_image_spec_witness :
    fetch_image (HttpResult.ok 500 [7]) (HttpResult.ok 200 [9]) = some [9] ∧
      fetch_image (HttpResult.ok 500 [7]) (HttpResult.ok 404 [9]) = none := by
  refine ⟨(fetch_image_spec 500 [7] [9] HttpResult.exn).2.2.1 (by decide),
    (fetch_image_spec 500 [7] [9] HttpResult.exn).2.2.2.2 404 (by decide) (by decide)⟩

-- --------------------------------------------------------------------------
-- Claim C5
-- --------------------------------------------------------------------------

/-- C5: `fetch_quote` never raises (it is a total function whose `try`
body's exceptions are all routed to the handler) and distinguishes its two
failure modes: every non-200 status yields exactly the "API error" pair,
and every raised exception - the network request raising, or the 200-path
JSON parse raising - yields exactly the distinct "offline" pair. -/
theorem fetch_quote_failure_modes (s : ℕ) (body : JsonParse) :
    (s ≠ 200 → fetch_quote (QuoteResp.resp s body) = apiErrorPair) ∧
    fetch_quote QuoteResp.exn = offlinePair ∧
    fetch_quote (QuoteResp.resp 200 JsonParse.fail) = offlinePair ∧
    apiErrorPair ≠ offlinePair := by
  refine ⟨?_, rfl, rfl, apiErrorPair_ne_offlinePair⟩
  intro hs
  simp [fetch_quote, fetch_quote_try, hs]

/-- C5 witness: a simulated 500 status returns the "API error" pair. -/
theorem fetch_quote_failure_modes_witness :
    fetch_quote (QuoteResp.resp 500 (JsonParse.val Json.null)) = apiErrorPair ∧
      fetch_quote QuoteResp.exn = offlinePair := by
  exact ⟨(fetch_quote_failure_modes 500 (JsonParse.val Json.null)).1 (by decide),
    (fetch_quote_failure_modes 500 (JsonParse.val Json.null)).2.1⟩

-- --------------------------------------------------------------------------
-- Claim C9
-- --------------------------------------------------------------------------

/-- C9: a 200 response whose JSON body is the empty list makes `data[0]`
raise inside the guarded block, so `fetch_quote` returns the "offline"
exception-path pair, not the "API error" pair: HTTP status alone does not
separate the two failure modes. -/
theorem fetch_quote_200_empty_list_offline :
    fetch_quote (QuoteResp.resp 200 (JsonParse.val (Json.arr []))) = offlinePair ∧
      offlinePair ≠ apiErrorPair := by
  exact ⟨rfl, fun h => apiErrorPair_ne_offlinePair h.symm⟩

-- --------------------------------------------------------------------------
-- Compositor: scale-to-cover and center-crop (app.py lines 144-166)
-- --------------------------------------------------------------------------

/-- Python `round` (banker's rounding, round half to even), applied by
Pillow's `Image.crop` to each float box coordinate; the box values here
are integers divided by two, so they are exact in float and the rational
model is exact. -/
def roundHalfEven (q : ℚ) : ℤ :=
  if q - ⌊q⌋ < 1/2 then ⌊q⌋
  else if 1/2 < q - ⌊q⌋ then ⌊q⌋ + 1
  else if ⌊q⌋ % 2 = 0 then ⌊q⌋ else ⌊q⌋ + 1

/-- The resize target (app.py lines 147-159): compare the image aspect
ratio `w/h` against the window aspect ratio; when the image is
proportionally wider, scale to window height (`new_width = int(new_height
* img_ratio)`), else scale to window width (`new_height = int(new_width /
img_ratio)`).  `int` truncation of these positive floats is `Int.floor`. -/
def scaled_dims (w h : ℕ) : ℕ × ℕ :=
  if (WINDOW_WIDTH : ℚ) / (WINDOW_HEIGHT : ℚ) < (w : ℚ) / (h : ℚ) then
    (Int.toNat ⌊(WINDOW_HEIGHT : ℚ) * ((w : ℚ) / (h : ℚ))⌋, WINDOW_HEIGHT)
  else
    (WINDOW_WIDTH, Int.toNat ⌊(WINDOW_WIDTH : ℚ) / ((w : ℚ) / (h : ℚ))⌋)

/-- The center-crop box (app.py lines 162-165): `(left, top, right,
bottom)` with float midpoints. -/
def crop_box (nw nh : ℕ) : ℚ × ℚ × ℚ × ℚ :=
  (((nw : ℚ) - (WINDOW_WIDTH : ℚ)) / 2, ((nh : ℚ) - (WINDOW_HEIGHT : ℚ)) / 2,
   ((nw : ℚ) + (WINDOW_WIDTH : ℚ)) / 2, ((nh : ℚ) + (WINDOW_HEIGHT : ℚ)) / 2)

/-- Pixel dimensions of `img.crop(box)`: Pillow rounds each coordinate
with Python `round` and the result is `(x1 - x0, y1 - y0)`. -/
def cropped_dims (nw nh : ℕ) : ℤ × ℤ :=
  (roundHalfEven (crop_box nw nh).2.2.1 - roundHalfEven (crop_box nw nh).1,
   roundHalfEven (crop_box nw nh).2.2.2 - roundHalfEven (crop_box nw nh).2.1)

lemma roundHalfEven_add_int_even (q : ℚ) (k : ℤ) (hk : k % 2 = 0) :
    roundHalfEven (q + (k : ℚ)) = roundHalfEven q + k := by
  have hfl : ⌊q + (k : ℚ)⌋ = ⌊q⌋ + k := Int.floor_add_int q k
  have hpar : (⌊q⌋ + k) % 2 = ⌊q⌋ % 2 := by omega
  unfold roundHalfEven
  rw [hfl]
  have hfr : q + (k : ℚ) - ((⌊q⌋ + k : ℤ) : ℚ) = q - (⌊q⌋ : ℚ) := by
    push_cast; ring
  rw [hfr, hpar]
  split_ifs <;> omega

/-- For every scaled size, the crop of app.py lines 162-166 has exactly
the window dimensions: the rounded box satisfies `right - left = 900` and
`bottom - top = 600` because the two coordinates on each axis differ by
the even integer window extent. -/
lemma cropped_dims_eq (nw nh : ℕ) :
    cropped_dims nw nh = ((WINDOW_WIDTH : ℤ), (WINDOW_HEIGHT : ℤ)) := by
  have hw : ((nw : ℚ) + (WINDOW_WIDTH : ℚ)) / 2
      = ((nw : ℚ) - (WINDOW_WIDTH : ℚ)) / 2 + ((WINDOW_WIDTH : ℤ) : ℚ) := by
    push_cast [WINDOW_WIDTH]; ring
  have hh : ((nh : ℚ) + (WINDOW_HEIGHT : ℚ)) / 2
      = ((nh : ℚ) - (WINDOW_HEIGHT : ℚ)) / 2 + ((WINDOW_HEIGHT : ℤ) : ℚ) := by
    push_cast [WINDOW_HEIGHT]; ring
  unfold cropped_dims crop_box
  simp only
  rw [hw, hh, roundHalfEven_add_int_even _ _ (by decide),
    roundHalfEven_add_int_even _ _ (by decide)]
  simp only [Prod.mk.injEq]
  constructor <;> ring

lemma scaled_dims_cover (w h : ℕ) (hw : 0 < w) (hh : 0 < h) :
    WINDOW_WIDTH ≤ (scaled_dims w h).1 ∧ WINDOW_HEIGHT ≤ (scaled_dims w h).2 := by
  have hwq : (0 : ℚ) < (w : ℚ) := by exact_mod_cast hw
  have hhq : (0 : ℚ) < (h : ℚ) := by exact_mod_cast hh
  have hr : (0 : ℚ) < (w : ℚ) / (h : ℚ) := div_pos hwq hhq
  unfold scaled_dims
  by_cases hc : (WINDOW_WIDTH : ℚ) / (WINDOW_HEIGHT : ℚ) < (w : ℚ) / (h : ℚ)
  · simp only [hc, if_true]
    refine ⟨?_, le_refl _⟩
    have hval : (WINDOW_WIDTH : ℚ) ≤ (WINDOW_HEIGHT : ℚ) * ((w : ℚ) / (h : ℚ)) := by
      have h1 : (WINDOW_HEIGHT : ℚ) * ((WINDOW_WIDTH : ℚ) / (WINDOW_HEIGHT : ℚ))
          < (WINDOW_HEIGHT : ℚ) * ((w : ℚ) / (h : ℚ)) := by
        exact mul_lt_mul_of_pos_left hc (by norm_num [WINDOW_HEIGHT])
      have h2 : (WINDOW_HEIGHT : ℚ) * ((WINDOW_WIDTH : ℚ) / (WINDOW_HEIGHT : ℚ))
          = (WINDOW_WIDTH : ℚ) := by
        norm_num [WINDOW_HEIGHT, WINDOW_WIDTH]
      linarith
    have hfl : (WINDOW_WIDTH : ℤ) ≤ ⌊(WINDOW_HEIGHT : ℚ) * ((w : ℚ) / (h : ℚ))⌋ := by
      apply Int.le_floor.mpr
      exact_mod_cast hval
    have h0 : (0 : ℤ) ≤ ⌊(WINDOW_HEIGHT : ℚ) * ((w : ℚ) / (h : ℚ))⌋ := by
      have : (0 : ℤ) ≤ (WINDOW_WIDTH : ℤ) := by positivity
      omega
    exact (Int.le_toNat h0).mpr hfl
  · simp only [hc, if_false]
    refine ⟨le_refl _, ?_⟩
    have hle : (w : ℚ) / (h : ℚ) ≤ (WINDOW_WIDTH : ℚ) / (WINDOW_HEIGHT : ℚ) :=
      not_lt.mp hc
    have hval : (WINDOW_HEIGHT : ℚ) ≤ (WINDOW_WIDTH : ℚ) / ((w : ℚ) / (h : ℚ)) := by
      rw [le_div_iff₀ hr]
      have h1 : (WINDOW_HEIGHT : ℚ) * ((w : ℚ) / (h : ℚ))
          ≤ (WINDOW_HEIGHT : ℚ) * ((WINDOW_WIDTH : ℚ) / (WINDOW_HEIGHT : ℚ)) := by
        exact mul_le_mul_of_nonneg_left hle (by norm_num [WINDOW_HEIGHT])
      have h2 : (WINDOW_HEIGHT : ℚ) * ((WINDOW_WIDTH : ℚ) / (WINDOW_HEIGHT : ℚ))
          = (WINDOW_WIDTH : ℚ) := by
        norm_num [WINDOW_HEIGHT, WINDOW_WIDTH]
      linarith
    have hfl : (WINDOW_HEIGHT : ℤ) ≤ ⌊(WINDOW_WIDTH : ℚ) / ((w : ℚ) / (h : ℚ))⌋ := by
      apply Int.le_floor.mpr
      exact_mod_cast hval
    have h0 : (0 : ℤ) ≤ ⌊(WINDOW_WIDTH : ℚ) / ((w : ℚ) / (h : ℚ))⌋ := by
      have : (0 : ℤ) ≤ (WINDOW_HEIGHT : ℤ) := by positivity
      omega
    exact (Int.le_toNat h0).mpr hfl

-- --------------------------------------------------------------------------
-- Claim C1
-- --------------------------------------------------------------------------

/-- C1: for every decodable image (positive source dimensions), the
scale-then-center-crop step yields exactly the window dimensions; the
scaled intermediate covers the window on both axes (no letterboxing); the
wider-than-window branch scales to window height and the other branch to
window width; and the crop box is centered on both axes (left+right = the
scaled width, top+bottom = the scaled height). -/
theorem scale_crop_exact (w h : ℕ) (hw : 0 < w) (hh : 0 < h) :
    WINDOW_WIDTH ≤ (scaled_dims w h).1 ∧
    WINDOW_HEIGHT ≤ (scaled_dims w h).2 ∧
    cropped_dims (scaled_dims w h).1 (scaled_dims w h).2
      = ((WINDOW_WIDTH : ℤ), (WINDOW_HEIGHT : ℤ)) ∧
    ((WINDOW_WIDTH : ℚ) / (WINDOW_HEIGHT : ℚ) < (w : ℚ) / (h : ℚ) →
      (scaled_dims w h).2 = WINDOW_HEIGHT) ∧
    (¬ (WINDOW_WIDTH : ℚ) / (WINDOW_HEIGHT : ℚ) < (w : ℚ) / (h : ℚ) →
      (scaled_dims w h).1 = WINDOW_WIDTH) ∧
    (crop_box (scaled_dims w h).1 (scaled_dims w h).2).1
        + (crop_box (scaled_dims w h).1 (scaled_dims w h).2).2.2.1
      = ((scaled_dims w h).1 : ℚ) ∧
    (crop_box (scaled_dims w h).1 (scaled_dims w h).2).2.1
        + (crop_box (scaled_dims w h).1 (scaled_dims w h).2).2.2.2
      = ((scaled_dims w h).2 : ℚ) := by
  refine ⟨(scaled_dims_cover w h hw hh).1, (scaled_dims_cover w h hw hh).2,
    cropped_dims_eq _ _, ?_, ?_, ?_, ?_⟩
  · intro hc; simp [scaled_dims, hc]
  · intro hc; simp [scaled_dims, hc]
  · unfold crop_box; simp only; ring
  · unfold crop_box; simp only; ring

/-- C1 witness: a 3:1 source image (wider than the window) is scaled to
1800 x 600 and crops back to exactly 900 x 600. -/
theorem scale_crop_exact_witness :
    scaled_dims 3 1 = (1800, 600) ∧
      cropped_dims (scaled_dims 3 1).1 (scaled_dims 3 1).2 = (900, 600) := by
  refine ⟨by norm_num [scaled_dims, WINDOW_WIDTH, WINDOW_HEIGHT]; rfl, ?_⟩
  have hres := (scale_crop_exact 3 1 (by decide) (by decide)).2.2.1
  rw [hres]; decide

-- --------------------------------------------------------------------------
-- Compositor: font resolution (app.py lines 176-207)
-- --------------------------------------------------------------------------

/-- A glyph-rendering resource: `ImageFont.truetype(path, size)` or the
built-in `ImageFont.load_default()`. -/
inductive Font where
  | truetype (path : String) (size : ℕ) : Font
  | defaultFont : Font
deriving DecidableEq

/-- The candidate font paths, in source order (app.py lines 181-193). -/
def font_candidates : List String :=
  ["/System/Library/Fonts/HelveticaNeue.ttc",
   "/System/Library/Fonts/SFNS.ttf",
   "/Library/Fonts/Arial.ttf",
   "arial.ttf",
   "segoeui.ttf",
   "calibri.ttf",
   "/usr/share/fonts/truetype/dejavu/DejaVuSans-Bold.ttf",
   "/usr/share/fonts/truetype/liberation/LiberationSans-Regular.ttf"]

/-- The `for font_path in font_candidates` loop (app.py lines 195-201):
try each path in order, `break` on the first whose font file loads.
`loads p` says whether `ImageFont.truetype(p, _)` succeeds (both sizes
load the same file, so one predicate per path). -/
def fontSearchLoop (loads : String → Bool) : List String → Option String
  | [] => none
  | p :: ps => if loads p then some p else fontSearchLoop loads ps

/-- Font resolution (app.py lines 195-207): the first loading candidate
wins at sizes 36 and 24; if none loads, `ImageFont.load_default()` is used
for both. -/
def resolve_fonts (loads : String → Bool) : Font × Font :=
  match fontSearchLoop loads font_candidates with
  | some p => (Font.truetype p 36, Font.truetype p 24)
  | none => (Font.defaultFont, Font.defaultFont)

lemma fontSearchLoop_eq_find (loads : String → Bool) (l : List String) :
    fontSearchLoop loads l = l.find? loads := by
  induction l with
  | nil => rfl
  | cons p ps ih =>
    by_cases hp : loads p
    · simp [fontSearchLoop, List.find?, hp]
    · simp only [fontSearchLoop, hp, if_false, ih]
      simp [List.find?_cons, hp]

-- --------------------------------------------------------------------------
-- Compositor: text wrapping (app.py lines 209-218; CPython textwrap with
-- the default TextWrapper options used by the source:
-- break_long_words=True, drop_whitespace=True, no indents, max_lines=None)
-- --------------------------------------------------------------------------

/-- The characters of CPython `textwrap._whitespace` (tab, newline,
vertical tab, form feed, carriage return, space): exactly these are
translated to spaces by `TextWrapper._munge_whitespace` and form the
whitespace class of the chunk-splitting regular expression. -/
def pyWhitespaceSix (c : Char) : Bool :=
  c == ' ' || c == Char.ofNat 9 || c == Char.ofNat 10 || c == Char.ofNat 11 ||
    c == Char.ofNat 12 || c == Char.ofNat 13

/-- Python `str.isspace` on one character: the 29 code points CPython
treats as whitespace (this is the set `str.strip()` removes). -/
def pyIsSpace (c : Char) : Bool :=
  pyWhitespaceSix c || c.toNat == 28 || c.toNat == 29 || c.toNat == 30 ||
    c.toNat == 31 || c.toNat == 0x85 || c.toNat == 0xa0 || c.toNat == 0x1680 ||
    (Nat.ble 0x2000 c.toNat && Nat.ble c.toNat 0x200a) ||
    c.toNat == 0x2028 || c.toNat == 0x2029 || c.toNat == 0x202f ||
    c.toNat == 0x205f || c.toNat == 0x3000

/-- `TextWrapper._munge_whitespace`: each of the six whitespace
characters becomes a single space.  (`expand_tabs` is not modelled: a tab
becomes one space here instead of expanding to a tab stop; every theorem
below either uses tab-free text or excludes whitespace by hypothesis.) -/
def mungeWhitespace (cs : List Char) : List Char :=
  cs.map (fun c => if pyWhitespaceSix c then ' ' else c)

/-- `TextWrapper._split` on munged text without hyphens: the regular
expression splits the text into maximal runs of spaces and maximal runs of
non-spaces (empty chunks are filtered out).  The hyphenated-word clauses
of the regex are not modelled; the claims settled here use hyphen-free
texts. -/
def splitChunks : List Char → List (List Char)
  | [] => []
  | c :: cs =>
    (c :: cs.takeWhile (fun d => ((d == ' ') == (c == ' '))))
      :: splitChunks (cs.dropWhile (fun d => ((d == ' ') == (c == ' '))))
termination_by l => l.length
decreasing_by
  simp only [List.length_cons]
  have : ∀ (p : Char → Bool) (l : List Char), (l.dropWhile p).length ≤ l.length := by
    intro p l
    induction l with
    | nil => simp [List.dropWhile]
    | cons x xs ih =>
      by_cases hx : p x
      · simp only [List.dropWhile, hx]
        exact le_trans ih (Nat.le_succ _)
      · simp [List.dropWhile, hx]
  exact Nat.lt_succ_of_le (this _ cs)

/-- Python `chunk.strip() == ''`: `str.strip()` removes the full
`str.isspace` whitespace set, so a chunk strips to the empty string
exactly when every character is Python whitespace. -/
def isBlank (c : List Char) : Bool := c.all pyIsSpace

/-- `sum(map(len, cur_line))`. -/
def sumLen (l : List (List Char)) : ℕ := (l.map List.length).sum

/-- The inner greedy loop of `TextWrapper._wrap_chunks`: move chunks onto
the current line while they fit.  `acc` is the current line in reverse
order (Python appends; the reversed-list model pops from the front). -/
def fillLine (width : ℕ) (curLen : ℕ) (acc : List (List Char)) :
    List (List Char) → List (List Char) × List (List Char)
  | [] => (acc, [])
  | c :: cs =>
    if curLen + c.length ≤ width then fillLine width (curLen + c.length) (c :: acc) cs
    else (acc, c :: cs)

/-- `chunk.rfind('-', 0, bound)` as an optional index. -/
def rfindHyphen (c : List Char) (bound : ℕ) : Option ℕ :=
  ((List.range (min bound c.length)).filter (fun i => c.getD i ' ' == '-')).getLast?

/-- The `end` computed by `TextWrapper._handle_long_word` under
`break_on_hyphens=True`: break after the last hyphen in the available
space when legal, else take `space_left` characters. -/
def hyphenBreakLen (c : List Char) (spaceLeft : ℕ) : ℕ :=
  if spaceLeft < c.length then
    match rfindHyphen c spaceLeft with
    | some hy =>
      if 0 < hy ∧ (c.take hy).any (fun ch => ch != '-') then hy + 1 else spaceLeft
    | none => spaceLeft
  else spaceLeft

/-- `TextWrapper._handle_long_word` with `break_long_words=True`: put the
head of the over-long chunk on the current line and leave the rest as the
next chunk. -/
def handleLong (width curLen : ℕ) (curRev : List (List Char)) :
    List (List Char) → List (List Char) × List (List Char)
  | [] => (curRev, [])
  | c :: cs =>
    let spaceLeft := if width < 1 then 1 else width - curLen
    let endLen := hyphenBreakLen c spaceLeft
    (c.take endLen :: curRev, c.drop endLen :: cs)

/-- The `if chunks and len(chunks[-1]) > width: self._handle_long_word(...)`
step after the greedy fill: fires only when the next chunk is longer than
the whole line width. -/
def afterFill (width : ℕ) (fl : List (List Char) × List (List Char)) :
    List (List Char) × List (List Char) :=
  match fl.2 with
  | [] => fl
  | d :: _ => if width < d.length then handleLong width (sumLen fl.1) fl.1 fl.2 else fl

/-- `if self.drop_whitespace and cur_line and cur_line[-1].strip() == '':
del cur_line[-1]` (the line is kept in reverse, so its last chunk is the
head). -/
def dropTrailingBlank (cur : List (List Char)) : List (List Char) :=
  match cur with
  | [] => []
  | e :: es => if isBlank e then es else e :: es

/-- One iteration of the outer `while chunks:` loop of `_wrap_chunks`
(CPython textwrap): optionally drop one leading whitespace chunk (only
once at least one line has been emitted), fill the line greedily, handle
an over-long next chunk, drop a trailing whitespace chunk from the line,
and emit the joined line if non-empty.  Returns the emitted line (if any)
and the remaining chunks. -/
def wrapStep (width : ℕ) (chunks : List (List Char)) (started : Bool) :
    Option (List Char) × List (List Char) :=
  match chunks with
  | [] => (none, [])
  | c :: cs =>
    let cks := if started && isBlank c then cs else c :: cs
    let hl := afterFill width (fillLine width 0 [] cks)
    let curFinal := dropTrailingBlank hl.1
    (if curFinal.isEmpty then none else some curFinal.reverse.flatten, hl.2)

/-- Termination measure for the outer wrapping loop: total character
count plus chunk count. -/
def chunkMeasure (chunks : List (List Char)) : ℕ :=
  (chunks.map (fun c => c.length + 1)).sum

lemma chunkMeasure_cons (c : List Char) (cs : List (List Char)) :
    chunkMeasure (c :: cs) = c.length + 1 + chunkMeasure cs := by
  simp [chunkMeasure]

lemma chunkMeasure_suffix_le {s l : List (List Char)} (h : s <:+ l) :
    chunkMeasure s ≤ chunkMeasure l := by
  obtain ⟨t, rfl⟩ := h
  simp [chunkMeasure]

lemma fillLine_suffix (width : ℕ) :
    ∀ (l : List (List Char)) (curLen : ℕ) (acc : List (List Char)),
      (fillLine width curLen acc l).2 <:+ l := by
  intro l
  induction l with
  | nil => intro curLen acc; simp [fillLine]
  | cons c cs ih =>
    intro curLen acc
    by_cases hfit : curLen + c.length ≤ width
    · simp only [fillLine, hfit, if_true]
      exact (ih _ _).trans (List.suffix_cons c cs)
    · simp [fillLine, hfit]

lemma handleLong_measure_le (width curLen : ℕ) (curRev : List (List Char)) :
    ∀ l : List (List Char),
      chunkMeasure (handleLong width curLen curRev l).2 ≤ chunkMeasure l := by
  intro l
  cases l with
  | nil => simp [handleLong]
  | cons c cs =>
    simp only [handleLong, chunkMeasure_cons]
    have : (c.drop (hyphenBreakLen c (if width < 1 then 1 else width - curLen))).length
        ≤ c.length := by
      simp [List.length_drop]
    omega

lemma hyphenBreakLen_pos (c : List Char) (s : ℕ) (hs : 0 < s) :
    0 < hyphenBreakLen c s := by
  unfold hyphenBreakLen
  split_ifs with h1
  · cases hfind : rfindHyphen c s with
    | none => simpa using hs
    | some hy =>
      simp only [hfind]
      split_ifs <;> omega
  · exact hs

lemma afterFill_measure_le (width : ℕ) (fl : List (List Char) × List (List Char)) :
    chunkMeasure (afterFill width fl).2 ≤ chunkMeasure fl.2 := by
  obtain ⟨a, b⟩ := fl
  cases b with
  | nil => simp [afterFill]
  | cons d ds =>
    simp only [afterFill]
    split_ifs
    · exact handleLong_measure_le _ _ _ _
    · exact le_refl _

lemma wrapStep_measure (width : ℕ) (c : List Char) (cs : List (List Char)) (started : Bool) :
    chunkMeasure (wrapStep width (c :: cs) started).2 < chunkMeasure (c :: cs) := by
  unfold wrapStep
  simp only
  by_cases hdrop : (started && isBlank c) = true
  · -- the leading whitespace chunk is dropped; everything after acts on cs
    rw [if_pos hdrop]
    have hsuf := chunkMeasure_suffix_le (fillLine_suffix width cs 0 [])
    have hle := afterFill_measure_le width (fillLine width 0 [] cs)
    rw [chunkMeasure_cons]
    omega
  · rw [if_neg hdrop]
    by_cases hfit : 0 + c.length ≤ width
    · -- the head chunk moves onto the line; the rest is a suffix of cs
      have hfl : fillLine width 0 [] (c :: cs) = fillLine width (0 + c.length) [c] cs := by
        rw [fillLine, if_pos hfit]
      rw [hfl]
      have hsuf := chunkMeasure_suffix_le (fillLine_suffix width cs (0 + c.length) [c])
      have hle := afterFill_measure_le width (fillLine width (0 + c.length) [c] cs)
      rw [chunkMeasure_cons]
      omega
    · -- over-long head chunk: handle_long_word removes at least one character
      have hfl : fillLine width 0 [] (c :: cs) = ([], c :: cs) := by
        rw [fillLine, if_neg hfit]
      rw [hfl]
      have hlen : width < c.length := by omega
      have haf : afterFill width (([], c :: cs) : List (List Char) × List (List Char))
          = handleLong width (sumLen []) [] (c :: cs) := by
        simp only [afterFill]
        rw [if_pos hlen]
      rw [haf]
      have hsl : (0 : ℕ) < (if width < 1 then 1 else width - sumLen []) := by
        simp only [sumLen, List.map_nil, List.sum_nil]
        split_ifs <;> omega
      have hpos := hyphenBreakLen_pos c _ hsl
      simp only [handleLong, chunkMeasure_cons]
      have hdroplen :
          (c.drop (hyphenBreakLen c (if width < 1 then 1 else width - sumLen []))).length
            = c.length - hyphenBreakLen c (if width < 1 then 1 else width - sumLen []) := by
        simp [List.length_drop]
      omega

/-- The outer `while chunks:` loop of `_wrap_chunks`, driven by explicit
fuel (`chunkMeasure` strictly decreases each iteration, so the fuel in
`wrapChunks` below is always sufficient).  `started` records whether any
line has been emitted (Python's `lines` being non-empty). -/
def wrapChunksF (width : ℕ) : ℕ → List (List Char) → Bool → List (List Char)
  | 0, _, _ => []
  | _ + 1, [], _ => []
  | fuel + 1, c :: cs, started =>
    match (wrapStep width (c :: cs) started).1 with
    | some l => l :: wrapChunksF width fuel (wrapStep width (c :: cs) started).2 true
    | none => wrapChunksF width fuel (wrapStep width (c :: cs) started).2 started

lemma wrapChunksF_stable (width : ℕ) :
    ∀ f1 f2 chunks started, chunkMeasure chunks < f1 → chunkMeasure chunks < f2 →
      wrapChunksF width f1 chunks started = wrapChunksF width f2 chunks started := by
  intro f1
  induction f1 with
  | zero => intro f2 chunks started h1 h2; omega
  | succ f ih =>
    intro f2 chunks started h1 h2
    cases f2 with
    | zero => omega
    | succ g =>
      cases chunks with
      | nil => rfl
      | cons c cs =>
        have hm := wrapStep_measure width c cs started
        have h1' : chunkMeasure (wrapStep width (c :: cs) started).2 < f := by omega
        have h2' : chunkMeasure (wrapStep width (c :: cs) started).2 < g := by omega
        simp only [wrapChunksF]
        cases hstep : (wrapStep width (c :: cs) started).1 with
        | some l => rw [ih g _ true h1' h2']
        | none => exact ih g _ started h1' h2'

/-- `TextWrapper._wrap_chunks` (CPython textwrap) with the defaults used
by app.py. -/
def wrapChunks (width : ℕ) (chunks : List (List Char)) (started : Bool) :
    List (List Char) :=
  wrapChunksF width (chunkMeasure chunks + 1) chunks started

lemma wrapChunks_nil (width : ℕ) (started : Bool) : wrapChunks width [] started = [] := rfl

lemma wrapChunks_cons (width : ℕ) (c : List Char) (cs : List (List Char)) (started : Bool) :
    wrapChunks width (c :: cs) started =
      match (wrapStep width (c :: cs) started).1 with
      | some l => l :: wrapChunks width (wrapStep width (c :: cs) started).2 true
      | none => wrapChunks width (wrapStep width (c :: cs) started).2 started := by
  unfold wrapChunks
  have hm := wrapStep_measure width c cs started
  simp only [wrapChunksF]
  cases hstep : (wrapStep width (c :: cs) started).1 with
  | some l =>
    dsimp only
    rw [wrapChunksF_stable width (chunkMeasure (c :: cs))
      (chunkMeasure (wrapStep width (c :: cs) started).2 + 1) _ true hm (Nat.lt_succ_self _)]
  | none =>
    dsimp only
    exact wrapChunksF_stable width (chunkMeasure (c :: cs))
      (chunkMeasure (wrapStep width (c :: cs) started).2 + 1) _ started hm (Nat.lt_succ_self _)

/-- `textwrap.TextWrapper(width=width).wrap(text)` (app.py lines
217-218). -/
def textwrap_wrap (width : ℕ) (text : List Char) : List (List Char) :=
  wrapChunks width (splitChunks (mungeWhitespace text)) false

/-- `avg_char_width = 18` (app.py line 214). -/
def avg_char_width : ℕ := 18

/-- `max_chars = int((WINDOW_WIDTH - 100) / avg_char_width)` (app.py line
215): 44. -/
def max_chars : ℕ := Int.toNat ⌊((WINDOW_WIDTH : ℚ) - 100) / (avg_char_width : ℚ)⌋

lemma max_chars_eq : max_chars = 44 := by
  norm_num [max_chars, WINDOW_WIDTH, avg_char_width]
  decide

-- --------------------------------------------------------------------------
-- Compositor: text layout and drawing (app.py lines 220-263)
-- --------------------------------------------------------------------------

/-- One `draw.text((x, y), txt, font=fnt, fill=fill)` call. -/
structure DrawOp where
  txt : List Char
  x : ℚ
  y : ℚ
  fnt : Font
  fill : ℕ × ℕ × ℕ × ℕ
deriving DecidableEq

/-- The composited bitmap handed to the display: its pixel dimensions and
the text draw calls rendered onto it (the decoded image, the overlay and
the pixels themselves are external to the layout claims). -/
structure Frame where
  width : ℕ
  height : ℕ
  ops : List DrawOp
deriving DecidableEq

/-- `line_heights` (app.py lines 233-236): per-line bounding-box height
plus 10 padding.  `measure l f` is `get_text_size(l, f)` =
`draw.textbbox((0,0), l, font=f)` width/height. -/
def line_heights (measure : List Char → Font → ℕ × ℕ) (fL : Font)
    (lines : List (List Char)) : List ℕ :=
  lines.map (fun l => (measure l fL).2 + 10)

/-- `total_height` (app.py lines 222-240): sum of line heights plus the
author's measured height plus 30 padding before the author line. -/
def total_height (measure : List Char → Font → ℕ × ℕ) (fL fS : Font)
    (lines : List (List Char)) (author : List Char) : ℕ :=
  (line_heights measure fL lines).sum + ((measure author fS).2 + 30)

/-- `current_y = (WINDOW_HEIGHT - total_height) / 2` (app.py line 242),
in float (exact rational). -/
def start_y (measure : List Char → Font → ℕ × ℕ) (fL fS : Font)
    (lines : List (List Char)) (author : List Char) : ℚ :=
  ((WINDOW_HEIGHT : ℚ) - (total_height measure fL fS lines author : ℚ)) / 2

/-- The quote-drawing loop (app.py lines 245-254): for each line, center
horizontally, draw the 2px-offset shadow then the near-white text, and
advance `current_y` by the line's height.  Returns the draw calls and the
final `current_y`. -/
def drawLines (measure : List Char → Font → ℕ × ℕ) (fL : Font) :
    List (List Char) → ℚ → List DrawOp × ℚ
  | [], y => ([], y)
  | l :: ls, y =>
    let wh := measure l fL
    let x : ℚ := ((WINDOW_WIDTH : ℚ) - (wh.1 : ℚ)) / 2
    let rest := drawLines measure fL ls (y + ((wh.2 : ℚ) + 10))
    (⟨l, x + 2, y + 2, fL, (0, 0, 0, 160)⟩ :: ⟨l, x, y, fL, (255, 255, 255, 255)⟩ :: rest.1,
     rest.2)

/-- `auth_str = f"- {author}"` (app.py line 258). -/
def auth_str (author : List Char) : List Char := '-' :: ' ' :: author

/-- The author-drawing step (app.py lines 257-263): center the prefixed
author line, draw the 1px-offset shadow then the light-gray text, at the
given `current_y`. -/
def authorOps (measure : List Char → Font → ℕ × ℕ) (fS : Font)
    (author : List Char) (y : ℚ) : List DrawOp :=
  let awh := measure (auth_str author) fS
  let ax : ℚ := ((WINDOW_WIDTH : ℚ) - (awh.1 : ℚ)) / 2
  [⟨auth_str author, ax + 1, y + 1, fS, (0, 0, 0, 160)⟩,
   ⟨auth_str author, ax, y, fS, (220, 220, 220, 255)⟩]

/-- The `current_y` at which the author line is drawn (app.py line 257):
the `current_y` left after the quote lines, plus 20. -/
def author_y (measure : List Char → Font → ℕ × ℕ) (fL fS : Font)
    (lines : List (List Char)) (author : List Char) : ℚ :=
  (drawLines measure fL lines (start_y measure fL fS lines author)).2 + 20

/-- `process_image` (app.py lines 137-269).  `decode` gives the decoded
source dimensions (`none` = `Image.open` raises); zero dimensions make
the aspect-ratio arithmetic raise `ZeroDivisionError`; both exceptions
are caught by the surrounding handler, which returns `None`.  Otherwise
the image is scaled to cover, center-cropped, overlaid, and the wrapped
text plus author are drawn; the resulting frame always carries the
cropped dimensions. -/
def process_image (decode : List ℕ → Option (ℕ × ℕ)) (loads : String → Bool)
    (measure : List Char → Font → ℕ × ℕ) (image_data : List ℕ)
    (text author : List Char) : Option Frame :=
  match decode image_data with
  | none => none
  | some (w, h) =>
    if w = 0 ∨ h = 0 then none
    else
      let nwh := scaled_dims w h
      let cdims := cropped_dims nwh.1 nwh.2
      let fonts := resolve_fonts loads
      let lines := textwrap_wrap max_chars text
      let dl := drawLines measure fonts.1 lines (start_y measure fonts.1 fonts.2 lines author)
      some { width := cdims.1.toNat, height := cdims.2.toNat,
             ops := dl.1 ++ authorOps measure fonts.2 author (dl.2 + 20) }

/-- `update_ui` (app.py lines 271-277): replace the displayed frame only
when handed a non-`None` image; `None` leaves the previous frame on
screen.  The state is the `currently displayed frame` reference. -/
def update_ui (st : Option Frame) (photo : Option Frame) : Option Frame :=
  match photo with
  | none => st
  | some fr => some fr

/-- One cycle of `load_content` (app.py lines 67-86) as a transition on
the displayed-frame state: fetch the quote (always succeeds with some
pair; its text/author are the `text`/`author` arguments here), fetch the
image, and only when image bytes arrived process them and marshal
`update_ui` to the interaction thread; on a fetch failure only a log
entry happens. -/
def load_content (decode : List ℕ → Option (ℕ × ℕ)) (loads : String → Bool)
    (measure : List Char → Font → ℕ × ℕ) (primary fallback : HttpResult)
    (text author : List Char) (st : Option Frame) : Option Frame :=
  match fetch_image primary fallback with
  | none => st
  | some bytes => update_ui st (process_image decode loads measure bytes text author)

lemma process_image_dims (decode : List ℕ → Option (ℕ × ℕ)) (loads : String → Bool)
    (measure : List Char → Font → ℕ × ℕ) (bytes : List ℕ) (text author : List Char)
    (fr : Frame) (hfr : process_image decode loads measure bytes text author = some fr) :
    fr.width = WINDOW_WIDTH ∧ fr.height = WINDOW_HEIGHT := by
  unfold process_image at hfr
  cases hdec : decode bytes with
  | none => rw [hdec] at hfr; exact absurd hfr (by simp)
  | some wh =>
    obtain ⟨w, h⟩ := wh
    rw [hdec] at hfr
    dsimp only at hfr
    by_cases hz : w = 0 ∨ h = 0
    · rw [if_pos hz] at hfr; exact absurd hfr (by simp)
    · rw [if_neg hz] at hfr
      simp only [Option.some.injEq] at hfr
      subst hfr
      rw [cropped_dims_eq]
      constructor
      · simp
      · simp

lemma process_image_total (decode : List ℕ → Option (ℕ × ℕ)) (loads : String → Bool)
    (measure : List Char → Font → ℕ × ℕ) (bytes : List ℕ) (text author : List Char)
    (w h : ℕ) (hdec : decode bytes = some (w, h)) (hw : w ≠ 0) (hh : h ≠ 0) :
    (process_image decode loads measure bytes text author).isSome = true := by
  unfold process_image
  rw [hdec]
  dsimp only
  rw [if_neg (by simp [hw, hh])]
  rfl

-- --------------------------------------------------------------------------
-- Claim C6
-- --------------------------------------------------------------------------

/-- C6: composition is atomic with respect to the displayed frame.
`process_image` returns either `none` (its handler catches every decode
or processing failure) or a complete canvas-sized frame; `update_ui`
applied to `None` leaves the displayed frame unchanged; and one whole
`load_content` cycle either leaves the displayed frame unchanged (image
fetch failed, or composition returned `None`) or replaces it with a
complete canvas-sized frame. -/
theorem compose_atomic (decode : List ℕ → Option (ℕ × ℕ)) (loads : String → Bool)
    (measure : List Char → Font → ℕ × ℕ) (primary fallback : HttpResult)
    (text author : List Char) (st : Option Frame) (bytes : List ℕ) :
    (process_image decode loads measure bytes text author = none ∨
      ∃ fr, process_image decode loads measure bytes text author = some fr ∧
        fr.width = WINDOW_WIDTH ∧ fr.height = WINDOW_HEIGHT) ∧
    update_ui st none = st ∧
    (load_content decode loads measure primary fallback text author st = st ∨
      ∃ fr, load_content decode loads measure primary fallback text author st = some fr ∧
        fr.width = WINDOW_WIDTH ∧ fr.height = WINDOW_HEIGHT) := by
  have hmain : ∀ bs : List ℕ,
      process_image decode loads measure bs text author = none ∨
        ∃ fr, process_image decode loads measure bs text author = some fr ∧
          fr.width = WINDOW_WIDTH ∧ fr.height = WINDOW_HEIGHT := by
    intro bs
    cases hpi : process_image decode loads measure bs text author with
    | none => exact Or.inl rfl
    | some fr =>
      exact Or.inr ⟨fr, rfl, process_image_dims decode loads measure bs text author fr hpi⟩
  refine ⟨hmain bytes, rfl, ?_⟩
  unfold load_content
  cases hfi : fetch_image primary fallback with
  | none => exact Or.inl rfl
  | some bs =>
    dsimp only
    rcases hmain bs with hnone | ⟨fr, hfr, hwd, hht⟩
    · rw [hnone]; exact Or.inl rfl
    · rw [hfr]; exact Or.inr ⟨fr, rfl, hwd, hht⟩

-- --------------------------------------------------------------------------
-- Claim C7
-- --------------------------------------------------------------------------

/-- C7: font resolution is total.  The candidates are probed in list
order and the first that loads wins (the loop equals `List.find?` over
the candidate list); when no candidate loads, both fonts fall back to the
built-in default resource; and whether composition produces a frame does
not depend on which fonts load (`process_image` succeeds or fails
identically for every `loads` predicate), so font resolution never causes
composition to fail. -/
theorem font_resolution_total (loads loads2 : String → Bool)
    (decode : List ℕ → Option (ℕ × ℕ)) (measure : List Char → Font → ℕ × ℕ)
    (bytes : List ℕ) (text author : List Char) :
    (resolve_fonts loads =
      match font_candidates.find? loads with
      | some p => (Font.truetype p 36, Font.truetype p 24)
      | none => (Font.defaultFont, Font.defaultFont)) ∧
    (process_image decode loads measure bytes text author).isSome
      = (process_image decode loads2 measure bytes text author).isSome := by
  constructor
  · unfold resolve_fonts
    rw [fontSearchLoop_eq_find]
  · unfold process_image
    cases hdec : decode bytes with
    | none => rfl
    | some wh =>
      obtain ⟨w, h⟩ := wh
      dsimp only
      by_cases hz : w = 0 ∨ h = 0
      · rw [if_pos hz, if_pos hz]
      · rw [if_neg hz, if_neg hz]
        rfl

lemma drawLines_snd (measure : List Char → Font → ℕ × ℕ) (fL : Font) :
    ∀ (lines : List (List Char)) (y : ℚ),
      (drawLines measure fL lines y).2 = y + ((line_heights measure fL lines).sum : ℚ) := by
  intro lines
  induction lines with
  | nil => intro y; simp [drawLines, line_heights]
  | cons l ls ih =>
    intro y
    simp only [drawLines, line_heights, List.map_cons, List.sum_cons]
    rw [ih]
    have : line_heights measure fL ls = ls.map (fun l => (measure l fL).2 + 10) := rfl
    rw [← this]
    push_cast
    ring

lemma drawLines_length (measure : List Char → Font → ℕ × ℕ) (fL : Font) :
    ∀ (lines : List (List Char)) (y : ℚ),
      (drawLines measure fL lines y).1.length = 2 * lines.length := by
  intro lines
  induction lines with
  | nil => intro y; simp [drawLines]
  | cons l ls ih =>
    intro y
    simp only [drawLines, List.length_cons]
    rw [ih]
    ring

lemma drawLines_get (measure : List Char → Font → ℕ × ℕ) (fL : Font) :
    ∀ (lines : List (List Char)) (y : ℚ) (i : ℕ) (hi : i < lines.length),
      (drawLines measure fL lines y).1.get? (2 * i + 1)
        = some ⟨lines.get ⟨i, hi⟩,
            ((WINDOW_WIDTH : ℚ) - ((measure (lines.get ⟨i, hi⟩) fL).1 : ℚ)) / 2,
            y + (((line_heights measure fL lines).take i).sum : ℚ),
            fL, (255, 255, 255, 255)⟩ := by
  intro lines
  induction lines with
  | nil => intro y i hi; exact absurd hi (by simp)
  | cons l ls ih =>
    intro y i hi
    cases i with
    | zero =>
      simp only [drawLines, List.get, line_heights, List.take, List.sum_nil,
        Nat.mul_zero, List.get?]
      norm_num
    | succ i =>
      have hi' : i < ls.length := by
        simpa using Nat.lt_of_succ_lt_succ hi
      have hidx : 2 * (i + 1) + 1 = (2 * i + 1) + 1 + 1 := by ring
      rw [hidx]
      simp only [drawLines, List.get?]
      rw [ih (y + (((measure l fL).2 : ℚ) + 10)) i hi']
      simp only [Option.some.injEq, List.get]
      have hlh : line_heights measure fL (l :: ls)
          = ((measure l fL).2 + 10) :: line_heights measure fL ls := rfl
      rw [hlh]
      simp only [List.take, List.sum_cons, DrawOp.mk.injEq, true_and, and_true]
      push_cast
      ring

-- --------------------------------------------------------------------------
-- Claim C8
-- --------------------------------------------------------------------------

/-- C8: in every successfully composited frame, the text block starts at
`current_y = (WINDOW_HEIGHT - total_height) / 2`; the i-th quote line's
near-white draw call sits at index `2*i + 1` of the frame's draw list
(after its shadow), horizontally centered at
`x = (WINDOW_WIDTH - measured line width) / 2`, at a `y` advanced from the
start by exactly the heights (bounding-box height + 10) of the previous
lines. -/
theorem text_layout_centered (decode : List ℕ → Option (ℕ × ℕ)) (loads : String → Bool)
    (measure : List Char → Font → ℕ × ℕ) (bytes : List ℕ) (text author : List Char)
    (fr : Frame) (hfr : process_image decode loads measure bytes text author = some fr) :
    start_y measure (resolve_fonts loads).1 (resolve_fonts loads).2
        (textwrap_wrap max_chars text) author
      = ((WINDOW_HEIGHT : ℚ)
          - (total_height measure (resolve_fonts loads).1 (resolve_fonts loads).2
              (textwrap_wrap max_chars text) author : ℚ)) / 2 ∧
    ∀ (i : ℕ) (hi : i < (textwrap_wrap max_chars text).length),
      fr.ops.get? (2 * i + 1)
        = some ⟨(textwrap_wrap max_chars text).get ⟨i, hi⟩,
            ((WINDOW_WIDTH : ℚ)
              - ((measure ((textwrap_wrap max_chars text).get ⟨i, hi⟩)
                  (resolve_fonts loads).1).1 : ℚ)) / 2,
            start_y measure (resolve_fonts loads).1 (resolve_fonts loads).2
                (textwrap_wrap max_chars text) author
              + (((line_heights measure (resolve_fonts loads).1
                  (textwrap_wrap max_chars text)).take i).sum : ℚ),
            (resolve_fonts loads).1, (255, 255, 255, 255)⟩ := by
  refine ⟨rfl, ?_⟩
  intro i hi
  have hops : fr.ops
      = (drawLines measure (resolve_fonts loads).1 (textwrap_wrap max_chars text)
          (start_y measure (resolve_fonts loads).1 (resolve_fonts loads).2
            (textwrap_wrap max_chars text) author)).1
        ++ authorOps measure (resolve_fonts loads).2 author
            ((drawLines measure (resolve_fonts loads).1 (textwrap_wrap max_chars text)
              (start_y measure (resolve_fonts loads).1 (resolve_fonts loads).2
                (textwrap_wrap max_chars text) author)).2 + 20) := by
    unfold process_image at hfr
    cases hdec : decode bytes with
    | none => rw [hdec] at hfr; exact absurd hfr (by simp)
    | some wh =>
      obtain ⟨w, h⟩ := wh
      rw [hdec] at hfr
      dsimp only at hfr
      by_cases hz : w = 0 ∨ h = 0
      · rw [if_pos hz] at hfr; exact absurd hfr (by simp)
      · rw [if_neg hz] at hfr
        simp only [Option.some.injEq] at hfr
        subst hfr
        rfl
  rw [hops]
  have hlt : 2 * i + 1
      < (drawLines measure (resolve_fonts loads).1 (textwrap_wrap max_chars text)
          (start_y measure (resolve_fonts loads).1 (resolve_fonts loads).2
            (textwrap_wrap max_chars text) author)).1.length := by
    rw [drawLines_length]
    omega
  rw [List.get?_append hlt]
  exact drawLines_get measure (resolve_fonts loads).1 (textwrap_wrap max_chars text) _ i hi

lemma splitChunks_nil : splitChunks [] = [] := by
  rw [splitChunks]

lemma textwrap_wrap_nil (width : ℕ) : textwrap_wrap width [] = [] := by
  unfold textwrap_wrap
  rw [show mungeWhitespace [] = [] from rfl, splitChunks_nil]
  exact wrapChunks_nil width false

-- --------------------------------------------------------------------------
-- Claim C10
-- --------------------------------------------------------------------------

/-- C10: the total height used for vertical centering reserves 30 pixels
before the author line (app.py line 240), but the author is drawn only 20
pixels below the quote block (app.py line 257).  Hence (when the measured
height of the prefixed author string `- author` equals that of the bare
author string, as both are measured with the small font) the rendered
span from the first quote line's top (`start_y`) to the author line's
bottom is `total_height - 10`, and the drawn block's midpoint sits 5
pixels above the exact vertical center `WINDOW_HEIGHT / 2`. -/
theorem author_gap_offset (measure : List Char → Font → ℕ × ℕ) (fL fS : Font)
    (lines : List (List Char)) (author : List Char)
    (hA : (measure (auth_str author) fS).2 = (measure author fS).2) :
    (author_y measure fL fS lines author + ((measure (auth_str author) fS).2 : ℚ))
        - start_y measure fL fS lines author
      = (total_height measure fL fS lines author : ℚ) - 10 ∧
    start_y measure fL fS lines author
        + ((author_y measure fL fS lines author + ((measure (auth_str author) fS).2 : ℚ))
            - start_y measure fL fS lines author) / 2
      = (WINDOW_HEIGHT : ℚ) / 2 - 5 := by
  have h1 : author_y measure fL fS lines author
      = start_y measure fL fS lines author + ((line_heights measure fL lines).sum : ℚ) + 20 := by
    unfold author_y
    rw [drawLines_snd]
  have h2 : (total_height measure fL fS lines author : ℚ)
      = ((line_heights measure fL lines).sum : ℚ) + ((measure author fS).2 : ℚ) + 30 := by
    unfold total_height
    push_cast
    ring
  constructor
  · rw [h1, hA, h2]
    ring
  · rw [h1, hA]
    unfold start_y
    rw [h2]
    ring

-- --------------------------------------------------------------------------
-- Concrete environment used by the closed witnesses
-- --------------------------------------------------------------------------

/-- A decoder that always yields a 900 x 600 image. -/
def envDecode : List ℕ → Option (ℕ × ℕ) := fun _ => some (900, 600)

/-- A font-loading predicate on which every candidate fails. -/
def envLoads : String → Bool := fun _ => false

/-- A text measurer: every string measures 100 x 20. -/
def envMeasure : List Char → Font → ℕ × ℕ := fun _ _ => (100, 20)

/-- C10 witness: at the constant measurer (where the prefixed and bare
author strings trivially measure alike), the drawn span is
`total_height - 10` and the block midpoint is 5 above center. -/
theorem author_gap_offset_witness :
    (author_y envMeasure Font.defaultFont Font.defaultFont [['h', 'i']] ['a']
        + ((envMeasure (auth_str ['a']) Font.defaultFont).2 : ℚ))
        - start_y envMeasure Font.defaultFont Font.defaultFont [['h', 'i']] ['a']
      = (total_height envMeasure Font.defaultFont Font.defaultFont [['h', 'i']] ['a'] : ℚ)
          - 10 ∧
    start_y envMeasure Font.defaultFont Font.defaultFont [['h', 'i']] ['a']
        + ((author_y envMeasure Font.defaultFont Font.defaultFont [['h', 'i']] ['a']
            + ((envMeasure (auth_str ['a']) Font.defaultFont).2 : ℚ))
            - start_y envMeasure Font.defaultFont Font.defaultFont [['h', 'i']] ['a']) / 2
      = (WINDOW_HEIGHT : ℚ) / 2 - 5 :=
  author_gap_offset envMeasure Font.defaultFont Font.defaultFont [['h', 'i']] ['a'] rfl

-- --------------------------------------------------------------------------
-- Claim C4
-- --------------------------------------------------------------------------

/-- C4 (counterexample): the claim says wrapping a zero-length quote text
produces a single empty-wrap line; `textwrap.wrap('')` in fact produces
no lines at all (the empty list), not a one-element list holding an empty
line. -/
theorem empty_text_no_line :
    textwrap_wrap max_chars [] = ([] : List (List Char)) ∧
      ([] : List (List Char)) ≠ [[]] := by
  exact ⟨textwrap_wrap_nil max_chars, by decide⟩

/-- C4 (amended): a zero-length quote text wraps to *no* lines (the empty
list), the computed total text-block height is exactly the author line's
measured height plus its fixed 30 gap, and composition still returns a
complete canvas-sized frame (no crash) whose draw list holds only the two
author draw calls. -/
theorem empty_text_composes (decode : List ℕ → Option (ℕ × ℕ)) (loads : String → Bool)
    (measure : List Char → Font → ℕ × ℕ) (bytes : List ℕ) (author : List Char)
    (w h : ℕ) (hdec : decode bytes = some (w, h)) (hw : w ≠ 0) (hh : h ≠ 0) :
    textwrap_wrap max_chars [] = [] ∧
    (∀ fL fS : Font,
      total_height measure fL fS (textwrap_wrap max_chars []) author
        = (measure author fS).2 + 30) ∧
    ∃ fr, process_image decode loads measure bytes [] author = some fr ∧
      fr.width = WINDOW_WIDTH ∧ fr.height = WINDOW_HEIGHT ∧ fr.ops.length = 2 := by
  refine ⟨textwrap_wrap_nil max_chars, ?_, ?_⟩
  · intro fL fS
    rw [textwrap_wrap_nil]
    simp [total_height, line_heights]
  · unfold process_image
    rw [hdec]
    dsimp only
    rw [if_neg (by simp [hw, hh])]
    refine ⟨_, rfl, ?_, ?_, ?_⟩
    · rw [cropped_dims_eq]
      simp
    · rw [cropped_dims_eq]
      simp
    · simp only [textwrap_wrap_nil]
      rfl

/-- C4 witness: the amended behaviour at a concrete decoder and author. -/
theorem empty_text_composes_witness :
    textwrap_wrap max_chars [] = [] ∧
    (∀ fL fS : Font,
      total_height envMeasure fL fS (textwrap_wrap max_chars []) ['a']
        = (envMeasure ['a'] fS).2 + 30) ∧
    ∃ fr, process_image envDecode envLoads envMeasure [0] [] ['a'] = some fr ∧
      fr.width = WINDOW_WIDTH ∧ fr.height = WINDOW_HEIGHT ∧ fr.ops.length = 2 :=
  empty_text_composes envDecode envLoads envMeasure [0] ['a'] 900 600 rfl
    (by decide) (by decide)

lemma mungeWhitespace_id (w : List Char)
    (h : ∀ c ∈ w, pyWhitespaceSix c = false) : mungeWhitespace w = w := by
  unfold mungeWhitespace
  induction w with
  | nil => rfl
  | cons c cs ih =>
    have hc := h c (List.mem_cons_self c cs)
    simp only [List.map_cons, hc, Bool.false_eq_true, if_false, List.cons.injEq, true_and]
    exact ih (fun d hd => h d (List.mem_cons_of_mem c hd))

lemma splitChunks_single (w : List Char) (hne : w ≠ [])
    (hsp : ∀ c ∈ w, c ≠ ' ') : splitChunks w = [w] := by
  cases w with
  | nil => exact absurd rfl hne
  | cons c cs =>
    have hc : (c == ' ') = false := by
      simpa using hsp c (List.mem_cons_self c cs)
    have hall : ∀ d ∈ cs, ((d == ' ') == (c == ' ')) = true := by
      intro d hd
      have hd' : (d == ' ') = false := by
        simpa using hsp d (List.mem_cons_of_mem c hd)
      rw [hc, hd']
      rfl
    rw [splitChunks, List.takeWhile_eq_self_iff.mpr hall,
      List.dropWhile_eq_nil_iff.mpr hall, splitChunks_nil]

lemma wrap_hi : textwrap_wrap max_chars ['h', 'i'] = [['h', 'i']] := by
  unfold textwrap_wrap
  rw [mungeWhitespace_id _ (by decide), splitChunks_single _ (by decide) (by decide),
    max_chars_eq]
  decide

/-- C8 witness: with the constant 100 x 20 measurer, an always-failing
font loader and a 900 x 600 decode of the text "hi" by author "a", the
composited frame's draw call at index 1 is the quote line, centered at
x = (900 - 100) / 2 = 400, starting at y = (600 - 80) / 2 = 260. -/
theorem text_layout_centered_witness :
    (process_image envDecode envLoads envMeasure [0] ['h', 'i'] ['a']).bind
        (fun fr => fr.ops.get? 1)
      = some ⟨['h', 'i'], 400, 260, Font.defaultFont, (255, 255, 255, 255)⟩ := by
  have hfonts : resolve_fonts envLoads = (Font.defaultFont, Font.defaultFont) := rfl
  cases hpi : process_image envDecode envLoads envMeasure [0] ['h', 'i'] ['a'] with
  | none =>
    have htot := process_image_total envDecode envLoads envMeasure [0] ['h', 'i'] ['a']
      900 600 rfl (by decide) (by decide)
    rw [hpi] at htot
    exact absurd htot (by simp)
  | some fr =>
    have hlen : 0 < (textwrap_wrap max_chars ['h', 'i']).length := by
      rw [wrap_hi]; decide
    have h := (text_layout_centered envDecode envLoads envMeasure [0] ['h', 'i'] ['a']
      fr hpi).2 0 hlen
    have hget : (textwrap_wrap max_chars ['h', 'i']).get ⟨0, hlen⟩ = ['h', 'i'] := by
      have h1 : (textwrap_wrap max_chars ['h', 'i']).get? 0
          = some ((textwrap_wrap max_chars ['h', 'i']).get ⟨0, hlen⟩) :=
        List.get?_eq_get hlen
      nth_rewrite 1 [wrap_hi] at h1
      simpa using h1.symm
    rw [hget, hfonts] at h
    simp only [Option.bind_eq_bind, Option.some_bind]
    have hidx : 2 * 0 + 1 = 1 := by norm_num
    rw [hidx] at h
    rw [h]
    simp only [Option.some.injEq, DrawOp.mk.injEq, envMeasure, true_and, and_true]
    constructor
    · norm_num [WINDOW_WIDTH]
    · rw [wrap_hi]
      norm_num [start_y, total_height, line_heights, envMeasure, WINDOW_HEIGHT]

lemma isBlank_false (w : List Char) (hne : w ≠ [])
    (hsp : ∀ c ∈ w, pyIsSpace c = false) : isBlank w = false := by
  cases w with
  | nil => exact absurd rfl hne
  | cons c cs =>
    have hc : pyIsSpace c = false := hsp c (List.mem_cons_self c cs)
    simp [isBlank, hc]

lemma rfindHyphen_none (c : List Char) (bound : ℕ) (hhy : ∀ ch ∈ c, ch ≠ '-') :
    rfindHyphen c bound = none := by
  unfold rfindHyphen
  have hfil : (List.range (min bound c.length)).filter
      (fun i => c.getD i ' ' == '-') = [] := by
    rw [List.filter_eq_nil]
    intro i hi
    rw [List.mem_range] at hi
    have hilt : i < c.length := lt_of_lt_of_le hi (min_le_right _ _)
    have hget : c.getD i ' ' = c.get ⟨i, hilt⟩ := by
      unfold List.getD
      rw [List.get?_eq_get hilt]
      rfl
    have hmem := List.get_mem c i hilt
    simp only [hget]
    simpa using hhy _ hmem
  rw [hfil]
  rfl

lemma hyphenBreakLen_eq (c : List Char) (s : ℕ) (hhy : ∀ ch ∈ c, ch ≠ '-') :
    hyphenBreakLen c s = s := by
  unfold hyphenBreakLen
  rw [rfindHyphen_none c s hhy]
  split_ifs <;> rfl

lemma wrapWord_step (width : ℕ) (hwid : 0 < width) (w : List Char) (started : Bool)
    (hne : w ≠ []) (hsp : ∀ c ∈ w, pyIsSpace c = false) (hhy : ∀ c ∈ w, c ≠ '-') :
    wrapChunks width [w] started =
      if w.length ≤ width then [w]
      else w.take width :: wrapChunks width [w.drop width] true := by
  have hblank := isBlank_false w hne hsp
  by_cases hle : w.length ≤ width
  · have hstep : wrapStep width [w] started = (some w, []) := by
      unfold wrapStep
      simp only [hblank, Bool.and_false, Bool.false_eq_true, if_false]
      rw [show fillLine width 0 [] [w] = ([w], []) from by
        rw [fillLine, if_pos (by omega : 0 + w.length ≤ width)]
        rfl]
      rw [show afterFill width (([w], []) : List (List Char) × List (List Char))
          = ([w], []) from rfl]
      rw [show dropTrailingBlank [w] = [w] from by simp [dropTrailingBlank, hblank]]
      simp
    rw [wrapChunks_cons, hstep, if_pos hle]
    simp [wrapChunks_nil]
  · have hlen : width < w.length := by omega
    have htkne : w.take width ≠ [] := by
      rw [← List.length_pos, List.length_take]
      omega
    have htkblank : isBlank (w.take width) = false :=
      isBlank_false _ htkne (fun c hc => hsp c (List.mem_of_mem_take hc))
    have hstep : wrapStep width [w] started = (some (w.take width), [w.drop width]) := by
      unfold wrapStep
      simp only [hblank, Bool.and_false, Bool.false_eq_true, if_false]
      rw [show fillLine width 0 [] [w] = ([], [w]) from by
        rw [fillLine, if_neg (by omega : ¬ 0 + w.length ≤ width)]]
      rw [show afterFill width (([], [w]) : List (List Char) × List (List Char))
          = handleLong width (sumLen []) [] [w] from by
        simp only [afterFill]
        rw [if_pos hlen]]
      rw [show handleLong width (sumLen []) [] [w]
          = ([w.take width], [w.drop width]) from by
        simp only [handleLong, sumLen, List.map_nil, List.sum_nil]
        rw [show (if width < 1 then 1 else width - 0) = width from by
          rw [if_neg (by omega), Nat.sub_zero]]
        rw [hyphenBreakLen_eq w width hhy]]
      rw [show dropTrailingBlank [w.take width] = [w.take width] from by
        simp [dropTrailingBlank, htkblank]]
      simp
    rw [wrapChunks_cons, hstep, if_neg hle]

lemma wrapWord_props :
    ∀ (n : ℕ) (w : List Char) (started : Bool), w.length ≤ n → w ≠ [] →
      (∀ c ∈ w, pyIsSpace c = false) → (∀ c ∈ w, c ≠ '-') →
      (wrapChunks max_chars [w] started).flatten = w ∧
      (wrapChunks max_chars [w] started).head? = some (w.take max_chars) ∧
      (max_chars < w.length → 2 ≤ (wrapChunks max_chars [w] started).length) ∧
      ∀ l ∈ wrapChunks max_chars [w] started, l.length ≤ max_chars ∧ l ≠ [] := by
  intro n
  induction n with
  | zero =>
    intro w started hlen hne
    exact absurd (List.eq_nil_of_length_eq_zero (Nat.le_zero.mp hlen)) hne
  | succ n ih =>
    intro w started hlen hne hsp hhy
    have hwid : 0 < max_chars := by rw [max_chars_eq]; decide
    rw [wrapWord_step max_chars hwid w started hne hsp hhy]
    by_cases hle : w.length ≤ max_chars
    · rw [if_pos hle]
      refine ⟨by simp, by rw [List.take_all_of_le hle]; rfl, by intro hc; omega, ?_⟩
      intro l hl
      rw [List.mem_singleton] at hl
      subst hl
      exact ⟨hle, hne⟩
    · rw [if_neg hle]
      have hlong : max_chars < w.length := by omega
      have hdne : w.drop max_chars ≠ [] := by
        rw [← List.length_pos, List.length_drop]
        omega
      have hdlen : (w.drop max_chars).length ≤ n := by
        rw [List.length_drop]
        omega
      have hdsp : ∀ c ∈ w.drop max_chars, pyIsSpace c = false :=
        fun c hc => hsp c (List.mem_of_mem_drop hc)
      have hdhy : ∀ c ∈ w.drop max_chars, c ≠ '-' :=
        fun c hc => hhy c (List.mem_of_mem_drop hc)
      obtain ⟨ihf, ihh, ihtwo, ihall⟩ := ih (w.drop max_chars) true hdlen hdne hdsp hdhy
      have hLne : wrapChunks max_chars [w.drop max_chars] true ≠ [] := by
        intro habs
        rw [habs] at ihf
        exact hdne ihf.symm
      refine ⟨?_, rfl, ?_, ?_⟩
      · rw [List.flatten_cons, ihf]
        exact List.take_append_drop max_chars w
      · intro _
        have := List.length_pos.mpr hLne
        simp only [List.length_cons]
        omega
      · intro l hl
        rw [List.mem_cons] at hl
        rcases hl with hl | hl
        · subst hl
          constructor
          · rw [List.length_take]
            omega
          · rw [← List.length_pos, List.length_take]
            omega
        · exact ihall l hl

-- --------------------------------------------------------------------------
-- Claim C3
-- --------------------------------------------------------------------------

/-- C3 (counterexample): the claim says a single word longer than the
wrap width is left unsplit on its own line.  The source builds
`textwrap.TextWrapper(width=max_chars)` with the default
`break_long_words=True`, which *does* split the word: 45 letters wrap to
a 44-letter line plus a 1-letter line, not to one unsplit line. -/
theorem long_word_kept_whole_counterexample :
    textwrap_wrap max_chars (List.replicate 45 'a')
        = [List.replicate 44 'a', ['a']] ∧
      [List.replicate 44 'a', ['a']] ≠ [List.replicate 45 'a'] := by
  constructor
  · unfold textwrap_wrap
    rw [mungeWhitespace_id _ (by decide),
      splitChunks_single _ (by decide) (by decide), max_chars_eq]
    decide
  · decide

/-- C3 (amended): for every quote text that is a single word (no
character of Python's `str.isspace` whitespace set - so nothing the
wrapper would munge, split on, or strip - and no hyphens) longer than
`max_chars`, the wrapper *breaks* the
word (default `break_long_words=True`): the first output line is exactly
the word's first `max_chars` characters, the lines concatenate to the
whole word (no hyphenation, nothing lost), there are at least two lines,
and every line fits in `max_chars` characters (so no line visually
overflows the canvas on account of an unbroken word). -/
theorem long_word_broken (w : List Char) (hne : w ≠ [])
    (hws : ∀ c ∈ w, pyIsSpace c = false) (hhy : ∀ c ∈ w, c ≠ '-')
    (hlong : max_chars < w.length) :
    (textwrap_wrap max_chars w).flatten = w ∧
    (textwrap_wrap max_chars w).head? = some (w.take max_chars) ∧
    2 ≤ (textwrap_wrap max_chars w).length ∧
    ∀ l ∈ textwrap_wrap max_chars w, l.length ≤ max_chars ∧ l ≠ [] := by
  have hsp : ∀ c ∈ w, c ≠ ' ' := by
    intro c hc habs
    subst habs
    have := hws ' ' hc
    exact absurd this (by decide)
  have hsix : ∀ c ∈ w, pyWhitespaceSix c = false := by
    intro c hc
    have h := hws c hc
    by_contra habs
    rw [Bool.not_eq_false] at habs
    unfold pyIsSpace at h
    rw [habs] at h
    simp at h
  have hred : textwrap_wrap max_chars w = wrapChunks max_chars [w] false := by
    unfold textwrap_wrap
    rw [mungeWhitespace_id w hsix, splitChunks_single w hne hsp]
  rw [hred]
  obtain ⟨h1, h2, h3, h4⟩ := wrapWord_props w.length w false (le_refl _) hne hws hhy
  exact ⟨h1, h2, h3 hlong, h4⟩

/-- C3 witness: the amended behaviour at the 45-letter word. -/
theorem long_word_broken_witness :
    (textwrap_wrap max_chars (List.replicate 45 'a')).flatten = List.replicate 45 'a' ∧
    (textwrap_wrap max_chars (List.replicate 45 'a')).head?
      = some ((List.replicate 45 'a').take max_chars) ∧
    2 ≤ (textwrap_wrap max_chars (List.replicate 45 'a')).length := by
  have h := long_word_broken (List.replicate 45 'a') (by decide) (by decide) (by decide)
    (by rw [max_chars_eq]; decide)
  exact ⟨h.1, h.2.1, h.2.2.1⟩
